import Mathlib

set_option maxHeartbeats 1000000

namespace VelaUX

/-! # Data model (spec §3)

The UI-parameter engine of velaux.  The engine's implementation file is not
part of the provided sources (only its test suite is), so the engine is
modelled from the specification; the environment service (`env.go`) is
embedded directly from the source.
-/

/-- Validation constraints attached to a UI parameter (spec §3):
`validate{required, enum[], pattern?, min?, max?}`. -/
structure Validate where
  required : Bool
  enum : List String
  pattern : Option String
  min : Option Int
  max : Option Int
deriving DecidableEq

/-- A visibility rule `{jsonKey, value, operator}` (spec §3). -/
structure Condition where
  jsonKey : String
  value : String
  op : String
deriving DecidableEq

/-- The core output entity (spec §3): `{jsonKey, label, description, uiType,
validate, conditions, sort, subParameters}`.  `subParameters` makes the type
recursive, hence an inductive with a single constructor. -/
inductive UIParameter : Type where
  | mk (jsonKey : String) (label : String) (description : String) (uiType : String)
      (validate : Validate) (conditions : List Condition) (sort : Nat)
      (subParameters : List UIParameter)

namespace UIParameter

def jsonKey : UIParameter → String | mk k _ _ _ _ _ _ _ => k

def label : UIParameter → String | mk _ l _ _ _ _ _ _ => l

def description : UIParameter → String | mk _ _ d _ _ _ _ _ => d

def uiType : UIParameter → String | mk _ _ _ u _ _ _ _ => u

def validate : UIParameter → Validate | mk _ _ _ _ v _ _ _ => v

def conditions : UIParameter → List Condition | mk _ _ _ _ _ c _ _ => c

def sort : UIParameter → Nat | mk _ _ _ _ _ _ s _ => s

def subParameters : UIParameter → List UIParameter | mk _ _ _ _ _ _ _ sub => sub

/-- Replace only the `sort` field. -/
def withSort (n : Nat) : UIParameter → UIParameter
  | mk k l d u v c _ sub => mk k l d u v c n sub

@[simp] theorem jsonKey_mk (k l d u v c s sub) : (mk k l d u v c s sub).jsonKey = k := rfl
@[simp] theorem label_mk (k l d u v c s sub) : (mk k l d u v c s sub).label = l := rfl
@[simp] theorem description_mk (k l d u v c s sub) : (mk k l d u v c s sub).description = d := rfl
@[simp] theorem uiType_mk (k l d u v c s sub) : (mk k l d u v c s sub).uiType = u := rfl
@[simp] theorem validate_mk (k l d u v c s sub) : (mk k l d u v c s sub).validate = v := rfl
@[simp] theorem conditions_mk (k l d u v c s sub) : (mk k l d u v c s sub).conditions = c := rfl
@[simp] theorem sort_mk (k l d u v c s sub) : (mk k l d u v c s sub).sort = s := rfl
@[simp] theorem subParameters_mk (k l d u v c s sub) :
    (mk k l d u v c s sub).subParameters = sub := rfl

@[simp] theorem withSort_mk (n k l d u v c s sub) :
    (mk k l d u v c s sub).withSort n = mk k l d u v c n sub := rfl

@[simp] theorem jsonKey_withSort (n : Nat) (p : UIParameter) : (p.withSort n).jsonKey = p.jsonKey := by
  cases p; rfl
@[simp] theorem label_withSort (n : Nat) (p : UIParameter) : (p.withSort n).label = p.label := by
  cases p; rfl
@[simp] theorem validate_withSort (n : Nat) (p : UIParameter) :
    (p.withSort n).validate = p.validate := by
  cases p; rfl
@[simp] theorem sort_withSort (n : Nat) (p : UIParameter) : (p.withSort n).sort = n := by
  cases p; rfl
@[simp] theorem subParameters_withSort (n : Nat) (p : UIParameter) :
    (p.withSort n).subParameters = p.subParameters := by
  cases p; rfl

end UIParameter

/-! ## Parameter Sorter (spec §4.2) -/

/-- Modelled from the spec: the three sort keys of §4.2, most significant
first, packed into one lexicographic triple.  Required entries first
(`!required` so that `required = true` is the smaller key), then ascending
`subParameters` count, then ascending code-point comparison of `label`. -/
def sortKey (p : UIParameter) : Bool ×ₗ (Nat ×ₗ String) :=
  toLex (!p.validate.required, toLex (p.subParameters.length, p.label))

/-- The sorter's ordering relation on siblings: comparison of `sortKey`. -/
def paramLE (a b : UIParameter) : Prop := sortKey a ≤ sortKey b

/-- Unfolding of `paramLE` into its three lexicographic components.  The
`label` comparison is phrased on `toList` so that it is kernel-computable. -/
theorem paramLE_iff (a b : UIParameter) :
    paramLE a b ↔
      ((!a.validate.required) < (!b.validate.required) ∨
        ((!a.validate.required) = (!b.validate.required) ∧
          (a.subParameters.length < b.subParameters.length ∨
            (a.subParameters.length = b.subParameters.length ∧
              a.label.toList ≤ b.label.toList)))) := by
  rw [paramLE, sortKey, sortKey, Prod.Lex.le_iff, Prod.Lex.le_iff, String.le_iff_toList_le]

instance : DecidableRel paramLE := fun a b =>
  decidable_of_iff _ (paramLE_iff a b).symm

instance : IsTotal UIParameter paramLE := ⟨fun a b => le_total (sortKey a) (sortKey b)⟩

instance : IsTrans UIParameter paramLE := ⟨fun _ _ _ h₁ h₂ => le_trans h₁ h₂⟩

/-- Head-seeded minimum of a list, 100 when the list is empty; the
"smallest sort value observed, or 100 if none is set" of spec §4.2. -/
def minL : List Nat → Nat
  | [] => 100
  | s :: rest => rest.foldl Nat.min s

/-- Modelled from the spec (§4.2): the base of the renumbering — "the smallest
`sort` value observed on input, or 100 if none is set".  A `sort` of `0` (the
Go zero value of `uint`) counts as unset. -/
def sortBase (l : List UIParameter) : Nat :=
  minL ((l.map UIParameter.sort).filter (fun s => s != 0))

/-- Modelled from the spec (§4.2): assign `sort` values sequentially from a
base, incrementing by 1 per position, continuously across the whole list. -/
def assignSorts : Nat → List UIParameter → List UIParameter
  | _, [] => []
  | n, p :: rest => p.withSort n :: assignSorts (n + 1) rest

/-- Modelled from the spec (§4.2, the function `sortDefaultUISchema` whose
implementation file is absent from the sources; its unit test
`testSortDefaultUISchema` is in the sources): reorder one sibling list by the
three keys with a stable sort, then renumber sequentially from `sortBase`. -/
def sortDefaultUISchema (l : List UIParameter) : List UIParameter :=
  assignSorts (sortBase l) (List.insertionSort paramLE l)

/-- A parameter as in the `testSortDefaultUISchema` fixture: only label,
required flag, sub-parameters and input sort 100 are set. -/
def scenarioParam (label : String) (required : Bool) (subs : List UIParameter) : UIParameter :=
  .mk "" label "" "" ⟨required, [], none, none, none⟩ [] 100 subs

/-- A bare sub-parameter of the `testSortDefaultUISchema` fixture. -/
def scenarioSub (label : String) : UIParameter :=
  .mk "" label "" "" ⟨false, [], none, none, none⟩ [] 0 []

/-- The input list of the `testSortDefaultUISchema` test of the sources. -/
def scenarioInput : List UIParameter :=
  [scenarioParam "P1" true [scenarioSub "P1S1"],
   scenarioParam "T2" true [scenarioSub "T2S1", scenarioSub "T2S2", scenarioSub "T2S3"],
   scenarioParam "T3" false [],
   scenarioParam "P4" false [],
   scenarioParam "T5" true [scenarioSub "T5S1", scenarioSub "T5S2"],
   scenarioParam "P6" true [scenarioSub "P6S1", scenarioSub "P6S2", scenarioSub "P6S3"]]

/-! ### Sorter lemmas -/

@[simp] theorem sortKey_withSort (n : Nat) (p : UIParameter) :
    sortKey (p.withSort n) = sortKey p := by
  cases p; rfl

theorem paramLE_withSort_left (n : Nat) (a b : UIParameter) :
    paramLE (a.withSort n) b ↔ paramLE a b := by
  simp [paramLE]

theorem paramLE_refl (a : UIParameter) : paramLE a a := le_refl _

theorem sortKey_eq_of_le_of_le {a b : UIParameter} (h₁ : paramLE a b) (h₂ : paramLE b a) :
    sortKey a = sortKey b := le_antisymm h₁ h₂

@[simp] theorem assignSorts_nil (n : Nat) : assignSorts n [] = [] := rfl

@[simp] theorem assignSorts_cons (n : Nat) (p : UIParameter) (l : List UIParameter) :
    assignSorts n (p :: l) = p.withSort n :: assignSorts (n + 1) l := rfl

@[simp] theorem assignSorts_length : ∀ (l : List UIParameter) (n : Nat),
    (assignSorts n l).length = l.length
  | [], _ => rfl
  | _ :: rest, n => by simp [assignSorts_length rest (n + 1)]

theorem assignSorts_get_sort : ∀ (l : List UIParameter) (n i : Nat)
    (h : i < (assignSorts n l).length), ((assignSorts n l).get ⟨i, h⟩).sort = n + i
  | [], _, i, h => by simp at h
  | p :: rest, n, 0, h => by simp
  | p :: rest, n, i + 1, h => by
    have h' : i < (assignSorts (n + 1) rest).length := by
      simpa using Nat.lt_of_succ_lt_succ (by simpa using h)
    simpa [Nat.add_assoc, Nat.add_comm 1 i] using assignSorts_get_sort rest (n + 1) i h'

theorem assignSorts_get : ∀ (l : List UIParameter) (n i : Nat)
    (h : i < (assignSorts n l).length) (h' : i < l.length),
    (assignSorts n l).get ⟨i, h⟩ = (l.get ⟨i, h'⟩).withSort (n + i)
  | [], _, i, h, _ => by simp at h
  | p :: rest, n, 0, h, h' => by simp
  | p :: rest, n, i + 1, h, h' => by
    have hh : i < (assignSorts (n + 1) rest).length := by
      simpa using Nat.lt_of_succ_lt_succ (by simpa using h)
    have hh' : i < rest.length := Nat.lt_of_succ_lt_succ h'
    simpa [Nat.add_assoc, Nat.add_comm 1 i] using assignSorts_get rest (n + 1) i hh hh'

theorem mem_assignSorts : ∀ {l : List UIParameter} {n : Nat} {q : UIParameter},
    q ∈ assignSorts n l → ∃ p ∈ l, ∃ m, q = p.withSort m := by
  intro l
  induction l with
  | nil => intro n q h; simp [assignSorts] at h
  | cons p rest ih =>
    intro n q h
    rcases List.mem_cons.mp h with h | h
    · exact ⟨p, List.mem_cons_self _ _, n, h⟩
    · rcases ih h with ⟨p', hp', m, hm⟩
      exact ⟨p', List.mem_cons_of_mem _ hp', m, hm⟩

theorem sorted_assignSorts : ∀ (l : List UIParameter) (n : Nat),
    l.Sorted paramLE → (assignSorts n l).Sorted paramLE := by
  intro l
  induction l with
  | nil => intro n _; simp [assignSorts]
  | cons p rest ih =>
    intro n hs
    rw [List.sorted_cons] at hs
    rw [assignSorts_cons, List.sorted_cons]
    refine ⟨?_, ih (n + 1) hs.2⟩
    intro q hq
    rcases mem_assignSorts hq with ⟨p', hp', m, rfl⟩
    have : paramLE p p' := hs.1 p' hp'
    simpa [paramLE] using this

theorem assignSorts_assignSorts : ∀ (l : List UIParameter) (n m : Nat),
    assignSorts n (assignSorts m l) = assignSorts n l
  | [], _, _ => rfl
  | p :: rest, n, m => by
    cases p
    simp [assignSorts_assignSorts rest (n + 1) (m + 1)]

theorem map_withSort_zero_assignSorts : ∀ (l : List UIParameter) (n : Nat),
    (assignSorts n l).map (UIParameter.withSort 0) = l.map (UIParameter.withSort 0)
  | [], _ => rfl
  | p :: rest, n => by
    cases p
    simp [map_withSort_zero_assignSorts rest (n + 1)]

theorem map_sort_assignSorts : ∀ (l : List UIParameter) (n : Nat),
    (assignSorts n l).map UIParameter.sort = List.range' n l.length
  | [], _ => rfl
  | p :: rest, n => by
    simp [map_sort_assignSorts rest (n + 1), List.range'_succ]

/-! ### `sortBase` lemmas -/

theorem foldl_min_le_init : ∀ (r : List Nat) (s : Nat), r.foldl Nat.min s ≤ s := by
  intro r
  induction r with
  | nil => intro s; exact Nat.le_refl s
  | cons x rest ih =>
    intro s
    exact Nat.le_trans (ih (Nat.min s x)) (Nat.min_le_left s x)

theorem foldl_min_le_mem : ∀ (r : List Nat) (s x : Nat), x ∈ r → r.foldl Nat.min s ≤ x := by
  intro r
  induction r with
  | nil => intro s x h; simp at h
  | cons y rest ih =>
    intro s x h
    rcases List.mem_cons.mp h with rfl | h
    · exact Nat.le_trans (foldl_min_le_init rest (Nat.min s x)) (Nat.min_le_right s x)
    · exact ih (Nat.min s y) x h

theorem natMin_eq_left {a b : Nat} (h : a ≤ b) : Nat.min a b = a := by
  show (if a ≤ b then a else b) = a
  rw [if_pos h]

theorem natMin_eq_right {a b : Nat} (h : b ≤ a) : Nat.min a b = b := by
  show (if a ≤ b then a else b) = b
  split <;> omega

theorem foldl_min_choice : ∀ (r : List Nat) (s : Nat),
    r.foldl Nat.min s = s ∨ r.foldl Nat.min s ∈ r := by
  intro r
  induction r with
  | nil => intro s; exact Or.inl rfl
  | cons y rest ih =>
    intro s
    rw [List.foldl_cons]
    rcases ih (Nat.min s y) with h | h
    · rw [h]
      rcases Nat.le_total s y with hle | hle
      · exact Or.inl (natMin_eq_left hle)
      · refine Or.inr ?_
        rw [natMin_eq_right hle]
        exact List.mem_cons_self y rest
    · exact Or.inr (List.mem_cons_of_mem y h)

theorem foldl_min_eq_init : ∀ (r : List Nat) (s : Nat), (∀ x ∈ r, s ≤ x) → r.foldl Nat.min s = s := by
  intro r
  induction r with
  | nil => intro s _; rfl
  | cons y rest ih =>
    intro s h
    have hy : s ≤ y := h y (List.mem_cons_self _ _)
    rw [List.foldl_cons, natMin_eq_left hy]
    exact ih s fun x hx => h x (List.mem_cons_of_mem _ hx)

theorem sortBase_eq_minL (l : List UIParameter) :
    sortBase l = minL ((l.map UIParameter.sort).filter (fun s => s != 0)) := rfl

theorem minL_mem : ∀ (f : List Nat), f ≠ [] → minL f ∈ f := by
  intro f hf
  cases f with
  | nil => exact absurd rfl hf
  | cons s rest =>
    show rest.foldl Nat.min s ∈ s :: rest
    rcases foldl_min_choice rest s with h | h
    · rw [h]; exact List.mem_cons_self _ _
    · exact List.mem_cons_of_mem _ h

theorem minL_le : ∀ (f : List Nat) (x : Nat), x ∈ f → minL f ≤ x := by
  intro f x hx
  cases f with
  | nil => simp at hx
  | cons s rest =>
    show rest.foldl Nat.min s ≤ x
    rcases List.mem_cons.mp hx with rfl | h
    · exact foldl_min_le_init rest x
    · exact foldl_min_le_mem rest s x h

theorem minL_perm : ∀ {f₁ f₂ : List Nat}, f₁.Perm f₂ → minL f₁ = minL f₂ := by
  intro f₁ f₂ hp
  cases hf₁ : f₁ with
  | nil => rw [hf₁] at hp; rw [hp.nil_eq.symm]
  | cons s rest =>
    have h₁ : f₁ ≠ [] := by rw [hf₁]; exact List.cons_ne_nil _ _
    have h₂ : f₂ ≠ [] := by
      intro h
      rw [h] at hp
      exact h₁ hp.symm.nil_eq.symm
    rw [← hf₁]
    have m₁ : minL f₁ ∈ f₂ := hp.subset (minL_mem f₁ h₁)
    have m₂ : minL f₂ ∈ f₁ := hp.symm.subset (minL_mem f₂ h₂)
    exact Nat.le_antisymm (minL_le f₁ (minL f₂) m₂) (minL_le f₂ (minL f₁) m₁)

theorem sortBase_perm {l₁ l₂ : List UIParameter} (hp : l₁.Perm l₂) :
    sortBase l₁ = sortBase l₂ := by
  rw [sortBase_eq_minL, sortBase_eq_minL]
  exact minL_perm ((hp.map UIParameter.sort).filter _)

theorem sortBase_pos (l : List UIParameter) : 1 ≤ sortBase l := by
  rw [sortBase_eq_minL]
  rcases hfc : (l.map UIParameter.sort).filter (fun s => s != 0) with _ | ⟨s, rest⟩
  · show 1 ≤ minL []
    rw [minL]; omega
  · have hmem : minL (s :: rest) ∈ s :: rest := minL_mem _ (List.cons_ne_nil _ _)
    have hmemf : minL (s :: rest) ∈ (l.map UIParameter.sort).filter (fun s => s != 0) := by
      rw [hfc]; exact hmem
    have := List.of_mem_filter hmemf
    have hne : minL (s :: rest) ≠ 0 := by simpa using this
    omega

theorem sortBase_le_of_mem {l : List UIParameter} {p : UIParameter}
    (hp : p ∈ l) (hs : p.sort ≠ 0) : sortBase l ≤ p.sort := by
  rw [sortBase_eq_minL]
  refine minL_le _ _ ?_
  refine List.mem_filter.mpr ⟨List.mem_map_of_mem UIParameter.sort hp, by simpa using hs⟩

theorem sortBase_eq_100 {l : List UIParameter} (h : ∀ p ∈ l, p.sort = 0) :
    sortBase l = 100 := by
  rw [sortBase_eq_minL]
  have : (l.map UIParameter.sort).filter (fun s => s != 0) = [] := by
    rw [List.filter_eq_nil_iff]
    intro a ha
    rcases List.mem_map.mp ha with ⟨p, hp, rfl⟩
    simpa using h p hp
  rw [this, minL]

theorem sortBase_observed {l : List UIParameter} (h : ∃ p ∈ l, p.sort ≠ 0) :
    ∃ p ∈ l, p.sort ≠ 0 ∧ sortBase l = p.sort := by
  rcases h with ⟨p₀, hp₀, hs₀⟩
  rw [sortBase_eq_minL]
  set f := (l.map UIParameter.sort).filter (fun s => s != 0) with hf
  have hfne : f ≠ [] := by
    intro hnil
    have : p₀.sort ∈ f := by
      refine List.mem_filter.mpr ⟨List.mem_map_of_mem UIParameter.sort hp₀, by simpa using hs₀⟩
    rw [hnil] at this
    simp at this
  have hmem : minL f ∈ f := minL_mem f hfne
  have hmem' := List.mem_filter.mp hmem
  rcases List.mem_map.mp hmem'.1 with ⟨p, hp, hps⟩
  exact ⟨p, hp, by simpa [hps] using hmem'.2, hps.symm⟩

/-- Unfolding of `paramLE` keeping the `String` order on labels. -/
theorem paramLE_iff_label (a b : UIParameter) :
    paramLE a b ↔
      ((!a.validate.required) < (!b.validate.required) ∨
        ((!a.validate.required) = (!b.validate.required) ∧
          (a.subParameters.length < b.subParameters.length ∨
            (a.subParameters.length = b.subParameters.length ∧ a.label ≤ b.label)))) := by
  rw [paramLE, sortKey, sortKey, Prod.Lex.le_iff, Prod.Lex.le_iff]

theorem paramLE_required {a b : UIParameter} (h : paramLE a b)
    (hb : b.validate.required = true) : a.validate.required = true := by
  by_cases ha : a.validate.required = true
  · exact ha
  · exfalso
    have ha' : a.validate.required = false := by
      cases hav : a.validate.required
      · rfl
      · exact absurd hav ha
    rw [paramLE_iff_label, ha', hb] at h
    rcases h with h | ⟨heq, _⟩
    · exact absurd h (by decide)
    · exact absurd heq (by decide)

theorem paramLE_count {a b : UIParameter} (h : paramLE a b)
    (hreq : a.validate.required = b.validate.required) :
    a.subParameters.length ≤ b.subParameters.length := by
  rw [paramLE_iff_label, hreq] at h
  rcases h with h | ⟨_, h | ⟨h, _⟩⟩
  · exact absurd h (by cases b.validate.required <;> decide)
  · omega
  · omega

theorem paramLE_label {a b : UIParameter} (h : paramLE a b)
    (hreq : a.validate.required = b.validate.required)
    (hcnt : a.subParameters.length = b.subParameters.length) : a.label ≤ b.label := by
  rw [paramLE_iff_label, hreq] at h
  rcases h with h | ⟨_, h | ⟨_, h⟩⟩
  · exact absurd h (by cases b.validate.required <;> decide)
  · omega
  · exact h

theorem sorted_sortDefaultUISchema (l : List UIParameter) :
    (sortDefaultUISchema l).Sorted paramLE :=
  sorted_assignSorts _ _ (List.sorted_insertionSort paramLE l)

/-- Two sorted permutations of each other whose `sortKey`s are pairwise
injective on the first list are equal. -/
theorem eq_of_perm_of_sorted_keys : ∀ {l₁ l₂ : List UIParameter}, l₁.Perm l₂ →
    l₁.Sorted paramLE → l₂.Sorted paramLE →
    (∀ a ∈ l₁, ∀ b ∈ l₁, sortKey a = sortKey b → a = b) → l₁ = l₂ := by
  intro l₁
  induction l₁ with
  | nil =>
    intro l₂ hp _ _ _
    exact hp.nil_eq
  | cons a t₁ ih =>
    intro l₂ hp hs₁ hs₂ hinj
    cases l₂ with
    | nil => exact absurd hp.symm.nil_eq (by simp)
    | cons b t₂ =>
      have ha2 : a ∈ b :: t₂ := hp.subset (List.mem_cons_self _ _)
      have hb1 : b ∈ a :: t₁ := hp.symm.subset (List.mem_cons_self _ _)
      have h1 : paramLE a b := by
        rcases List.mem_cons.mp hb1 with h | hmem
        · rw [h]; exact paramLE_refl _
        · exact List.rel_of_sorted_cons hs₁ b hmem
      have h2 : paramLE b a := by
        rcases List.mem_cons.mp ha2 with h | hmem
        · rw [h]; exact paramLE_refl _
        · exact List.rel_of_sorted_cons hs₂ a hmem
      have hab : a = b :=
        hinj a (List.mem_cons_self _ _) b hb1 (sortKey_eq_of_le_of_le h1 h2)
      subst hab
      have hpt : t₁.Perm t₂ := hp.cons_inv
      have ht : t₁ = t₂ :=
        ih hpt hs₁.of_cons hs₂.of_cons fun x hx y hy hk =>
          hinj x (List.mem_cons_of_mem _ hx) y (List.mem_cons_of_mem _ hy) hk
      rw [ht]

theorem sortBase_assignSorts {l : List UIParameter} (n : Nat) (h1 : 1 ≤ n) (hne : l ≠ []) :
    sortBase (assignSorts n l) = n := by
  rw [sortBase_eq_minL, map_sort_assignSorts]
  have hlen : l.length ≠ 0 := by
    intro h; exact hne (List.eq_nil_of_length_eq_zero h)
  have hfilter : (List.range' n l.length).filter (fun s => s != 0) = List.range' n l.length := by
    rw [List.filter_eq_self]
    intro a ha
    have := (List.mem_range'_1).mp ha
    simp only [bne_iff_ne, ne_eq]
    omega
  rw [hfilter]
  cases hll : l.length with
  | zero => exact absurd hll hlen
  | succ k =>
    rw [List.range'_succ, minL]
    refine foldl_min_eq_init _ _ ?_
    intro x hx
    have := (List.mem_range'_1).mp hx
    omega

theorem length_sortDefaultUISchema (l : List UIParameter) :
    (sortDefaultUISchema l).length = l.length := by
  rw [sortDefaultUISchema, assignSorts_length]
  exact (List.perm_insertionSort paramLE l).length_eq

theorem sort_get_sortDefaultUISchema (l : List UIParameter) (i : Nat)
    (h : i < (sortDefaultUISchema l).length) :
    ((sortDefaultUISchema l).get ⟨i, h⟩).sort = sortBase l + i :=
  assignSorts_get_sort _ _ _ _

theorem sortDefaultUISchema_idem (l : List UIParameter) :
    sortDefaultUISchema (sortDefaultUISchema l) = sortDefaultUISchema l := by
  cases hl : l with
  | nil => rfl
  | cons p rest =>
    rw [← hl]
    have hlen : l.length ≠ 0 := by rw [hl]; simp
    have hsp := List.perm_insertionSort paramLE l
    have hsne : List.insertionSort paramLE l ≠ [] := by
      intro h
      rw [h] at hsp
      have := hsp.length_eq
      simp only [List.length_nil] at this
      omega
    have hb1 : 1 ≤ sortBase l := sortBase_pos l
    have hout_sorted : (sortDefaultUISchema l).Sorted paramLE := sorted_sortDefaultUISchema l
    have hbase_out : sortBase (sortDefaultUISchema l) = sortBase l := by
      rw [sortDefaultUISchema]
      exact sortBase_assignSorts _ hb1 hsne
    rw [show sortDefaultUISchema (sortDefaultUISchema l) =
        assignSorts (sortBase (sortDefaultUISchema l))
          (List.insertionSort paramLE (sortDefaultUISchema l)) from rfl]
    rw [hout_sorted.insertionSort_eq, hbase_out, sortDefaultUISchema,
      assignSorts_assignSorts]

theorem sortDefaultUISchema_perm_eq {l₁ l₂ : List UIParameter} (hp : l₁.Perm l₂)
    (hdist : l₁.Pairwise fun a b => sortKey a ≠ sortKey b) :
    sortDefaultUISchema l₁ = sortDefaultUISchema l₂ := by
  have hsymm : Symmetric fun a b : UIParameter => sortKey a ≠ sortKey b :=
    fun x y h e => h e.symm
  have hinj : ∀ a ∈ l₁, ∀ b ∈ l₁, sortKey a = sortKey b → a = b := by
    intro a ha b hb hk
    by_contra hne
    exact (hdist.forall hsymm ha hb hne) hk
  have hsperm : (List.insertionSort paramLE l₁).Perm (List.insertionSort paramLE l₂) :=
    (List.perm_insertionSort paramLE l₁).trans
      (hp.trans (List.perm_insertionSort paramLE l₂).symm)
  have hinj' : ∀ a ∈ List.insertionSort paramLE l₁, ∀ b ∈ List.insertionSort paramLE l₁,
      sortKey a = sortKey b → a = b := by
    intro a ha b hb
    exact hinj a ((List.perm_insertionSort paramLE l₁).subset ha)
      b ((List.perm_insertionSort paramLE l₁).subset hb)
  have heq : List.insertionSort paramLE l₁ = List.insertionSort paramLE l₂ :=
    eq_of_perm_of_sorted_keys hsperm (List.sorted_insertionSort paramLE l₁)
      (List.sorted_insertionSort paramLE l₂) hinj'
  rw [sortDefaultUISchema, sortDefaultUISchema, heq, sortBase_perm hp]

theorem required_sort_lt {l : List UIParameter} :
    ∀ a ∈ sortDefaultUISchema l, ∀ b ∈ sortDefaultUISchema l,
      a.validate.required = true → b.validate.required = false → a.sort < b.sort := by
  intro a ha b hb hareq hbreq
  rcases List.mem_iff_get.mp ha with ⟨⟨i, hi⟩, hga⟩
  rcases List.mem_iff_get.mp hb with ⟨⟨j, hj⟩, hgb⟩
  rcases Nat.lt_trichotomy i j with hij | hij | hij
  · have hsa := sort_get_sortDefaultUISchema l i hi
    have hsb := sort_get_sortDefaultUISchema l j hj
    rw [hga] at hsa
    rw [hgb] at hsb
    omega
  · exfalso
    have : a = b := by
      rw [← hga, ← hgb]
      congr 1
      exact Fin.ext hij
    rw [this, hbreq] at hareq
    exact Bool.false_ne_true hareq
  · exfalso
    have hrel := (sorted_sortDefaultUISchema l).rel_get_of_lt
      (show (⟨j, hj⟩ : Fin _) < ⟨i, hi⟩ from hij)
    rw [hga, hgb] at hrel
    have := paramLE_required hrel hareq
    rw [hbreq] at this
    exact Bool.false_ne_true this

/-! ### Claims C1, C2, C6 about the Parameter Sorter -/

/-- C1: for every sibling list, the sorter's output order is determined by the
three keys, most significant first — every required entry precedes every
non-required entry (hard partition), within equal required-ness the
`subParameters` count is ascending, and remaining ties are in ascending
code-point order of `label`; and the concrete scenario of
`testSortDefaultUISchema` comes out as `P1, T5, P6, T2, P4, T3`. -/
theorem claim_C1_sorter_three_keys :
    (∀ l : List UIParameter,
      (sortDefaultUISchema l).Pairwise (fun a b =>
        (b.validate.required = true → a.validate.required = true) ∧
        (a.validate.required = b.validate.required →
          a.subParameters.length ≤ b.subParameters.length) ∧
        (a.validate.required = b.validate.required →
          a.subParameters.length = b.subParameters.length → a.label ≤ b.label))) ∧
    (sortDefaultUISchema scenarioInput).map UIParameter.label =
      ["P1", "T5", "P6", "T2", "P4", "T3"] := by
  constructor
  · intro l
    refine (sorted_sortDefaultUISchema l).imp fun h => ?_
    exact ⟨paramLE_required h, paramLE_count h, paramLE_label h⟩
  · decide

/-- Witness for C1: the theorem applied at the concrete scenario input. -/
theorem claim_C1_sorter_three_keys_witness :
    (sortDefaultUISchema scenarioInput).Pairwise (fun a b =>
      (b.validate.required = true → a.validate.required = true) ∧
      (a.validate.required = b.validate.required →
        a.subParameters.length ≤ b.subParameters.length) ∧
      (a.validate.required = b.validate.required →
        a.subParameters.length = b.subParameters.length → a.label ≤ b.label)) ∧
    (sortDefaultUISchema scenarioInput).map UIParameter.label =
      ["P1", "T5", "P6", "T2", "P4", "T3"] :=
  ⟨claim_C1_sorter_three_keys.1 scenarioInput, claim_C1_sorter_three_keys.2⟩

/-- C2: after sorting, `sort` values are assigned sequentially from a base
equal to the smallest nonzero `sort` observed on input (100 when none is set),
incrementing by one per position continuously across the whole list; hence a
required sibling always carries a strictly smaller `sort` than a non-required
one. -/
theorem claim_C2_sequential_sort_values :
    ∀ l : List UIParameter,
      (sortDefaultUISchema l).length = l.length ∧
      (∀ i (h : i < (sortDefaultUISchema l).length),
        ((sortDefaultUISchema l).get ⟨i, h⟩).sort = sortBase l + i) ∧
      ((∀ p ∈ l, p.sort = 0) → sortBase l = 100) ∧
      ((∃ p ∈ l, p.sort ≠ 0) → ∃ p ∈ l, p.sort ≠ 0 ∧ sortBase l = p.sort ∧
        ∀ q ∈ l, q.sort ≠ 0 → sortBase l ≤ q.sort) ∧
      (∀ a ∈ sortDefaultUISchema l, ∀ b ∈ sortDefaultUISchema l,
        a.validate.required = true → b.validate.required = false → a.sort < b.sort) := by
  intro l
  refine ⟨length_sortDefaultUISchema l, sort_get_sortDefaultUISchema l, sortBase_eq_100, ?_,
    required_sort_lt⟩
  intro hex
  rcases sortBase_observed hex with ⟨p, hp, hps, hbase⟩
  exact ⟨p, hp, hps, hbase, fun q hq hqs => sortBase_le_of_mem hq hqs⟩

/-- Witness for C2: evaluated at the concrete scenario input. -/
theorem claim_C2_sequential_sort_values_witness :
    ((sortDefaultUISchema scenarioInput).length = 6 ∧
      ((sortDefaultUISchema scenarioInput).get ⟨3, by decide⟩).sort =
        sortBase scenarioInput + 3) ∧
    (∃ p ∈ scenarioInput, p.sort ≠ 0 ∧ sortBase scenarioInput = p.sort ∧
      ∀ q ∈ scenarioInput, q.sort ≠ 0 → sortBase scenarioInput ≤ q.sort) := by
  have h := claim_C2_sequential_sort_values scenarioInput
  refine ⟨⟨by rw [h.1]; rfl, h.2.1 3 (by decide)⟩, ?_⟩
  refine h.2.2.2.1 ⟨scenarioInput.get ⟨0, by decide⟩, List.get_mem scenarioInput 0 (by decide), by decide⟩

/-- C6: the sorter is deterministic and idempotent — sorting twice gives
exactly the same list (order and `sort` values), and the result depends only
on the entries' key triples: any permutation of an input whose key triples
are pairwise distinct sorts to the same output list. -/
theorem claim_C6_deterministic_idempotent :
    (∀ l : List UIParameter,
      sortDefaultUISchema (sortDefaultUISchema l) = sortDefaultUISchema l) ∧
    (∀ l₁ l₂ : List UIParameter, l₁.Perm l₂ →
      l₁.Pairwise (fun a b => sortKey a ≠ sortKey b) →
      sortDefaultUISchema l₁ = sortDefaultUISchema l₂) :=
  ⟨sortDefaultUISchema_idem, fun _ _ hp hdist => sortDefaultUISchema_perm_eq hp hdist⟩

/-- The scenario input with its first two entries exchanged. -/
def scenarioInputSwapped : List UIParameter :=
  [scenarioParam "T2" true [scenarioSub "T2S1", scenarioSub "T2S2", scenarioSub "T2S3"],
   scenarioParam "P1" true [scenarioSub "P1S1"],
   scenarioParam "T3" false [],
   scenarioParam "P4" false [],
   scenarioParam "T5" true [scenarioSub "T5S1", scenarioSub "T5S2"],
   scenarioParam "P6" true [scenarioSub "P6S1", scenarioSub "P6S2", scenarioSub "P6S3"]]

/-- Witness for C6: idempotence at the scenario input, and determinism for a
concrete permutation of that input. -/
theorem claim_C6_deterministic_idempotent_witness :
    sortDefaultUISchema (sortDefaultUISchema scenarioInput) =
      sortDefaultUISchema scenarioInput ∧
    sortDefaultUISchema scenarioInput = sortDefaultUISchema scenarioInputSwapped := by
  refine ⟨claim_C6_deterministic_idempotent.1 scenarioInput, ?_⟩
  refine claim_C6_deterministic_idempotent.2 scenarioInput scenarioInputSwapped ?_ ?_
  · exact List.Perm.swap _ _ _
  · decide

/-! ## Patch Merger (spec §4.3) -/

/-- Modelled from the spec (§6): the `validate` part of an override entry,
every sub-field optional; an absent sub-field keeps the base value. -/
structure PartialValidate where
  required : Option Bool
  enum : Option (List String)
  pattern : Option String
  min : Option Int
  max : Option Int
deriving DecidableEq

/-- Modelled from the spec (§6): an override entry — "same shape as
UIParameter but every field optional except `jsonKey`". -/
inductive PartialUIParameter : Type where
  | mk (jsonKey : String) (label : Option String) (description : Option String)
      (uiType : Option String) (validate : Option PartialValidate)
      (conditions : Option (List Condition)) (sort : Option Nat)
      (subParameters : Option (List PartialUIParameter))

namespace PartialUIParameter

def jsonKey : PartialUIParameter → String | mk k _ _ _ _ _ _ _ => k

def label : PartialUIParameter → Option String | mk _ l _ _ _ _ _ _ => l

def description : PartialUIParameter → Option String | mk _ _ d _ _ _ _ _ => d

def uiType : PartialUIParameter → Option String | mk _ _ _ u _ _ _ _ => u

def validate : PartialUIParameter → Option PartialValidate | mk _ _ _ _ v _ _ _ => v

def conditions : PartialUIParameter → Option (List Condition) | mk _ _ _ _ _ c _ _ => c

def sort : PartialUIParameter → Option Nat | mk _ _ _ _ _ _ s _ => s

def subParameters : PartialUIParameter → Option (List PartialUIParameter)
  | mk _ _ _ _ _ _ _ sub => sub

@[simp] theorem ov_jsonKey_mk (k l d u v c s sub) : (mk k l d u v c s sub).jsonKey = k := rfl
@[simp] theorem ov_label_mk (k l d u v c s sub) : (mk k l d u v c s sub).label = l := rfl
@[simp] theorem ov_description_mk (k l d u v c s sub) :
    (mk k l d u v c s sub).description = d := rfl
@[simp] theorem ov_uiType_mk (k l d u v c s sub) : (mk k l d u v c s sub).uiType = u := rfl
@[simp] theorem ov_validate_mk (k l d u v c s sub) : (mk k l d u v c s sub).validate = v := rfl
@[simp] theorem ov_conditions_mk (k l d u v c s sub) :
    (mk k l d u v c s sub).conditions = c := rfl
@[simp] theorem ov_sort_mk (k l d u v c s sub) : (mk k l d u v c s sub).sort = s := rfl
@[simp] theorem ov_subParameters_mk (k l d u v c s sub) :
    (mk k l d u v c s sub).subParameters = sub := rfl

end PartialUIParameter

/-- Modelled from the spec (§4.3): sub-field-wise overwrite of `validate`;
a present override sub-field (including `required := true`) replaces the base
sub-field, an absent one keeps it. -/
def patchValidate (v : Validate) : Option PartialValidate → Validate
  | none => v
  | some pv =>
    { required := pv.required.getD v.required
      enum := pv.enum.getD v.enum
      pattern := match pv.pattern with | some s => some s | none => v.pattern
      min := match pv.min with | some m => some m | none => v.min
      max := match pv.max with | some m => some m | none => v.max }

mutual

/-- Modelled from the spec (§4.3): field-level overwrite of one matched base
node by its override entry; an override `subParameters` list is merged
recursively against the base `subParameters` (on a base node without
sub-parameters the mismatched portion is ignored). -/
def patchParameter : UIParameter → PartialUIParameter → UIParameter
  | .mk k l d u v c s sub, ov =>
    .mk k (ov.label.getD l) (ov.description.getD d) (ov.uiType.getD u)
      (patchValidate v ov.validate) (ov.conditions.getD c) (ov.sort.getD s)
      (match ov.subParameters with
        | none => sub
        | some ovSubs => patchSchema sub ovSubs)

/-- Modelled from the spec (§4.3, the function `patchSchema` whose
implementation file is absent from the sources; its unit test is in the
sources): for each base entry in order, find the override entry with equal
`jsonKey` and apply it; overrides matching no base entry are discarded. -/
def patchSchema : List UIParameter → List PartialUIParameter → List UIParameter
  | [], _ => []
  | b :: bs, ovs =>
    (match ovs.find? (fun o => o.jsonKey == b.jsonKey) with
      | none => b
      | some ov => patchParameter b ov) :: patchSchema bs ovs

end

/-- The `jsonKey` skeleton of a parameter tree: one node per parameter, at
every nesting level. -/
inductive KeyTree : Type where
  | node (key : String) (subs : List KeyTree)

def KeyTree.key : KeyTree → String | node k _ => k

mutual

def UIParameter.keyTree : UIParameter → KeyTree
  | .mk k _ _ _ _ _ _ sub => .node k (keyTreeList sub)

def keyTreeList : List UIParameter → List KeyTree
  | [] => []
  | p :: rest => p.keyTree :: keyTreeList rest

end

mutual

theorem keyTree_patchParameter : ∀ (b : UIParameter) (ov : PartialUIParameter),
    (patchParameter b ov).keyTree = b.keyTree
  | .mk k l d u v c s sub, ov => by
    rw [patchParameter]
    cases hov : ov.subParameters with
    | none => rw [UIParameter.keyTree, UIParameter.keyTree]
    | some ovSubs =>
      rw [UIParameter.keyTree, UIParameter.keyTree,
        keyTreeList_patchSchema sub ovSubs]

theorem keyTreeList_patchSchema : ∀ (bs : List UIParameter) (ovs : List PartialUIParameter),
    keyTreeList (patchSchema bs ovs) = keyTreeList bs
  | [], _ => rfl
  | b :: bs, ovs => by
    rw [patchSchema]
    cases hfind : ovs.find? (fun o => o.jsonKey == b.jsonKey) with
    | none => rw [keyTreeList, keyTreeList, keyTreeList_patchSchema bs ovs]
    | some ov =>
      rw [keyTreeList, keyTreeList, keyTree_patchParameter b ov,
        keyTreeList_patchSchema bs ovs]

end

theorem length_patchSchema : ∀ (bs : List UIParameter) (ovs : List PartialUIParameter),
    (patchSchema bs ovs).length = bs.length
  | [], _ => rfl
  | b :: bs, ovs => by
    rw [patchSchema, List.length_cons, List.length_cons, length_patchSchema bs ovs]

theorem patchSchema_unmatched_dropped :
    ∀ (bs : List UIParameter) (ov : PartialUIParameter) (ovs : List PartialUIParameter),
    ov.jsonKey ∉ bs.map UIParameter.jsonKey →
    patchSchema bs (ov :: ovs) = patchSchema bs ovs := by
  intro bs
  induction bs with
  | nil => intro ov ovs _; rfl
  | cons b bs ih =>
    intro ov ovs hnot
    have hneb : ov.jsonKey ≠ b.jsonKey := by
      intro h
      exact hnot (by rw [List.map_cons, h]; exact List.mem_cons_self _ _)
    have hfind : (ov :: ovs).find? (fun o => o.jsonKey == b.jsonKey) =
        ovs.find? (fun o => o.jsonKey == b.jsonKey) := by
      rw [List.find?_cons_of_neg]
      simpa using hneb
    rw [patchSchema, patchSchema, hfind, ih ov ovs (fun h => hnot (List.mem_cons_of_mem _ h))]

theorem patchParameter_no_base_subs (b : UIParameter) (ov : PartialUIParameter)
    (hsub : b.subParameters = []) :
    (patchParameter b ov).subParameters = [] ∧
    (patchParameter b ov).label = ov.label.getD b.label := by
  cases b with
  | mk k l d u v c s sub =>
    simp only [UIParameter.subParameters_mk] at hsub
    subst hsub
    rw [patchParameter]
    cases hov : ov.subParameters with
    | none => simp
    | some ovSubs => simp [patchSchema]

theorem patchSchema_nil_overrides : ∀ bs : List UIParameter, patchSchema bs [] = bs
  | [] => rfl
  | b :: bs => by
    rw [patchSchema, List.find?_nil, patchSchema_nil_overrides bs]

theorem getElem?_patchSchema : ∀ (bs : List UIParameter) (ovs : List PartialUIParameter)
    (i : Nat),
    (patchSchema bs ovs)[i]? = bs[i]?.map (fun b =>
      match ovs.find? (fun o => o.jsonKey == b.jsonKey) with
      | none => b
      | some ov => patchParameter b ov) := by
  intro bs
  induction bs with
  | nil => intro ovs i; rfl
  | cons b bs ih =>
    intro ovs i
    cases i with
    | zero => rw [patchSchema]; simp
    | succ i => rw [patchSchema]; simpa using ih ovs i

/-! ### Claims C3, C4 about the Patch Merger -/

/-- A small concrete base tree: a required parameter `a` with one nested
sub-parameter `a.x`, and a scalar parameter `b` with no sub-parameters. -/
def patchBase : List UIParameter :=
  [.mk "a" "A" "" "Input" ⟨true, [], none, none, none⟩ [] 100
    [.mk "a.x" "AX" "" "Input" ⟨false, [], none, none, none⟩ [] 101 []],
   .mk "b" "B" "" "Number" ⟨false, [], none, none, none⟩ [] 102 []]

/-- An override entry whose `jsonKey` matches no base entry. -/
def patchOther : PartialUIParameter :=
  .mk "zzz" (some "Z") none none none none none
    (some [.mk "zzz.q" (some "Q") none none none none none none])

/-- An override for the base entry `a`, overriding label, required,
sort and the label of the nested entry `a.x`. -/
def patchOv : PartialUIParameter :=
  .mk "a" (some "A2") none none (some ⟨some true, none, none, none, none⟩) none (some 7)
    (some [.mk "a.x" (some "AX2") none none none none none none])

/-- An override declaring `subParameters` for the base entry `b`, which has
none. -/
def patchOvB : PartialUIParameter :=
  .mk "b" (some "B2") none none none none none
    (some [.mk "b.q" (some "Q") none none none none none none])

/-- C3: patching preserves shape — the patched list has the same length and
the same `jsonKey` tree (same keys, same order, at every nesting level) as
the base; an override whose `jsonKey` matches no base entry is discarded; an
override declaring `subParameters` for a base node that has none is ignored
for that portion while its matched sibling fields still apply. -/
theorem claim_C3_patch_preserves_shape :
    (∀ (bs : List UIParameter) (ovs : List PartialUIParameter),
      (patchSchema bs ovs).length = bs.length ∧
      keyTreeList (patchSchema bs ovs) = keyTreeList bs) ∧
    (∀ (bs : List UIParameter) (ov : PartialUIParameter) (ovs : List PartialUIParameter),
      ov.jsonKey ∉ bs.map UIParameter.jsonKey →
      patchSchema bs (ov :: ovs) = patchSchema bs ovs) ∧
    (∀ (b : UIParameter) (ov : PartialUIParameter), b.subParameters = [] →
      (patchParameter b ov).subParameters = [] ∧
      (patchParameter b ov).label = ov.label.getD b.label) :=
  ⟨fun bs ovs => ⟨length_patchSchema bs ovs, keyTreeList_patchSchema bs ovs⟩,
   patchSchema_unmatched_dropped, patchParameter_no_base_subs⟩

/-- Witness for C3 at a concrete base tree and override document. -/
theorem claim_C3_patch_preserves_shape_witness :
    ((patchSchema patchBase [patchOther, patchOv, patchOvB]).length = patchBase.length ∧
      keyTreeList (patchSchema patchBase [patchOther, patchOv, patchOvB]) =
        keyTreeList patchBase) ∧
    patchSchema patchBase (patchOther :: [patchOv, patchOvB]) =
      patchSchema patchBase [patchOv, patchOvB] ∧
    ((patchParameter (patchBase.get ⟨1, by decide⟩) patchOvB).subParameters = [] ∧
      (patchParameter (patchBase.get ⟨1, by decide⟩) patchOvB).label =
        patchOvB.label.getD (patchBase.get ⟨1, by decide⟩).label) :=
  ⟨claim_C3_patch_preserves_shape.1 patchBase [patchOther, patchOv, patchOvB],
   claim_C3_patch_preserves_shape.2.1 patchBase patchOther [patchOv, patchOvB] (by decide),
   claim_C3_patch_preserves_shape.2.2 (patchBase.get ⟨1, by decide⟩) patchOvB rfl⟩

/-- C4: for each base entry, the output at position `i` is the base entry at
position `i`, patched by the override with equal `jsonKey` when one exists
(so the output order is inherited entirely from the base and the merger never
re-sorts); every field present on the override (label, description, uiType,
conditions, an explicit sort taken verbatim, any sub-field of validate
including forcing required) replaces the base field, and every absent field
keeps the base value. -/
theorem claim_C4_patch_fields :
    (∀ (bs : List UIParameter) (ovs : List PartialUIParameter) (i : Nat),
      (patchSchema bs ovs)[i]? = bs[i]?.map (fun b =>
        match ovs.find? (fun o => o.jsonKey == b.jsonKey) with
        | none => b
        | some ov => patchParameter b ov)) ∧
    (∀ (b : UIParameter) (ov : PartialUIParameter),
      (patchParameter b ov).jsonKey = b.jsonKey ∧
      (patchParameter b ov).label = ov.label.getD b.label ∧
      (patchParameter b ov).description = ov.description.getD b.description ∧
      (patchParameter b ov).uiType = ov.uiType.getD b.uiType ∧
      (patchParameter b ov).conditions = ov.conditions.getD b.conditions ∧
      (patchParameter b ov).sort = ov.sort.getD b.sort ∧
      (patchParameter b ov).validate = patchValidate b.validate ov.validate) ∧
    (∀ (v : Validate) (pv : PartialValidate),
      (patchValidate v (some pv)).required = pv.required.getD v.required ∧
      (patchValidate v (some pv)).enum = pv.enum.getD v.enum ∧
      (pv.pattern = none → (patchValidate v (some pv)).pattern = v.pattern) ∧
      (∀ s, pv.pattern = some s → (patchValidate v (some pv)).pattern = some s)) ∧
    (∀ v : Validate, patchValidate v none = v) := by
  refine ⟨getElem?_patchSchema, ?_, ?_, fun v => rfl⟩
  · intro b ov
    cases b with
    | mk k l d u v c s sub =>
      rw [patchParameter]
      cases hov : ov.subParameters <;> simp
  · intro v pv
    refine ⟨rfl, rfl, ?_, ?_⟩
    · intro h
      simp [patchValidate, h]
    · intro s h
      simp [patchValidate, h]

/-- Witness for C4 at the concrete base tree and override document. -/
theorem claim_C4_patch_fields_witness :
    (patchSchema patchBase [patchOv])[0]? = (patchBase[0]?.map (fun b =>
      match [patchOv].find? (fun o => o.jsonKey == b.jsonKey) with
      | none => b
      | some ov => patchParameter b ov)) ∧
    (patchParameter (patchBase.get ⟨0, by decide⟩) patchOv).sort =
      patchOv.sort.getD (patchBase.get ⟨0, by decide⟩).sort ∧
    (∀ s, (⟨some true, none, none, none, none⟩ : PartialValidate).pattern = some s →
      (patchValidate ⟨true, [], none, none, none⟩
        (some ⟨some true, none, none, none, none⟩)).pattern = some s) :=
  ⟨claim_C4_patch_fields.1 patchBase [patchOv] 0,
   (claim_C4_patch_fields.2.1 (patchBase.get ⟨0, by decide⟩) patchOv).2.2.2.2.2.1,
   fun s h => (claim_C4_patch_fields.2.2.1 ⟨true, [], none, none, none⟩
     ⟨some true, none, none, none, none⟩).2.2.2 s h⟩

/-! ## Schema Walker (spec §4.1) -/

/-- Modelled from the spec (§3): a JSON-Schema-style node
`{type, title, description, enum[], properties{name→SchemaNode}, items,
required[string]}`.  `properties` is an ordered association list; an absent
`properties` object is the empty list, an absent `items` is `none`. -/
inductive SchemaNode : Type where
  | mk (type : String) (title : Option String) (description : String)
      (enum : List String) (properties : List (String × SchemaNode))
      (items : Option SchemaNode) (required : List String)

namespace SchemaNode

def type : SchemaNode → String | mk t _ _ _ _ _ _ => t

def title : SchemaNode → Option String | mk _ t _ _ _ _ _ => t

def description : SchemaNode → String | mk _ _ d _ _ _ _ => d

def enum : SchemaNode → List String | mk _ _ _ e _ _ _ => e

def properties : SchemaNode → List (String × SchemaNode) | mk _ _ _ _ p _ _ => p

def items : SchemaNode → Option SchemaNode | mk _ _ _ _ _ i _ => i

def required : SchemaNode → List String | mk _ _ _ _ _ _ r => r

@[simp] theorem type_mk (t ti d e p i r) : (mk t ti d e p i r).type = t := rfl
@[simp] theorem title_mk (t ti d e p i r) : (mk t ti d e p i r).title = ti := rfl
@[simp] theorem enum_mk (t ti d e p i r) : (mk t ti d e p i r).enum = e := rfl
@[simp] theorem properties_mk (t ti d e p i r) : (mk t ti d e p i r).properties = p := rfl
@[simp] theorem items_mk (t ti d e p i r) : (mk t ti d e p i r).items = i := rfl
@[simp] theorem required_mk (t ti d e p i r) : (mk t ti d e p i r).required = r := rfl

end SchemaNode

/-- Modelled from the spec (§4.1): `jsonKey` is the dot-delimited path —
root children use the bare name, deeper nodes the parent key, a dot, and the
property name. -/
def joinKey (parentKey name : String) : String :=
  if parentKey == "" then name else parentKey ++ "." ++ name

/-- Modelled from the spec (§4.1, §9): the stable widget tag inferred from
`type`, presence of `enum`, and nesting — enumerations render as a choice
widget, objects with properties and arrays of objects as a nested group, the
scalar types as their default widget, and anything unknown (or an object
without properties) falls back to the generic scalar widget `"Input"`. -/
def inferUIType : SchemaNode → String
  | .mk ty _ _ en props items _ =>
    if en != [] then "Select"
    else if ty == "string" then "Input"
    else if ty == "number" then "Number"
    else if ty == "integer" then "Number"
    else if ty == "boolean" then "Switch"
    else if ty == "object" && !props.isEmpty then "Group"
    else if ty == "array" then
      match items with
      | some it => if it.type == "object" && !it.properties.isEmpty then "Group" else "Strings"
      | none => "Strings"
    else "Input"

mutual

/-- Modelled from the spec (§4.1): derive one UIParameter from one schema
property `name → child` under `parentKey`; `label` defaults to `title` else
the name, `validate.required` reflects membership of the name in the parent
node's `required` list, `validate.enum` is copied verbatim, and the walker
recurses into object properties and into array-of-object item properties
(reusing the array's own key). -/
def deriveParam (parentKey name : String) (child : SchemaNode)
    (requiredList : List String) : UIParameter :=
  match child with
  | .mk ty title _ en props items _ =>
    .mk (joinKey parentKey name) (title.getD name) child.description (inferUIType child)
      ⟨requiredList.contains name, en, none, none, none⟩ [] 0
      (if ty == "object" then
        deriveProps (joinKey parentKey name) props child.required
      else
        match items with
        | some (.mk ity _ _ _ iprops _ ireq) =>
          if ty == "array" && ity == "object" then
            deriveProps (joinKey parentKey name) iprops ireq
          else []
        | none => [])

/-- Modelled from the spec (§4.1): derive one UIParameter per property of a
node, in property order; no property is dropped. -/
def deriveProps (parentKey : String) :
    List (String × SchemaNode) → List String → List UIParameter
  | [], _ => []
  | (name, child) :: rest, req =>
    deriveParam parentKey name child req :: deriveProps parentKey rest req

end

mutual

/-- The `jsonKey` skeleton the walker is expected to produce for one schema
property: one node per property, transitively through object properties and
array-of-object item properties. -/
def schemaKeyTree (parentKey name : String) (child : SchemaNode) : KeyTree :=
  match child with
  | .mk ty _ _ _ props items _ =>
    .node (joinKey parentKey name)
      (if ty == "object" then
        schemaKeyTrees (joinKey parentKey name) props
      else
        match items with
        | some (.mk ity _ _ _ iprops _ _) =>
          if ty == "array" && ity == "object" then
            schemaKeyTrees (joinKey parentKey name) iprops
          else []
        | none => [])

def schemaKeyTrees (parentKey : String) : List (String × SchemaNode) → List KeyTree
  | [] => []
  | (n, c) :: rest => schemaKeyTree parentKey n c :: schemaKeyTrees parentKey rest

end

mutual

theorem keyTree_deriveParam : ∀ (parentKey name : String) (child : SchemaNode)
    (req : List String),
    (deriveParam parentKey name child req).keyTree = schemaKeyTree parentKey name child
  | parentKey, name, .mk ty title d en props items nreq, req => by
    rw [deriveParam.eq_def, schemaKeyTree.eq_def]
    dsimp only
    rw [UIParameter.keyTree]
    by_cases hty : (ty == "object") = true
    · rw [if_pos hty, if_pos hty, keyTreeList_deriveProps]
    · rw [if_neg hty, if_neg hty]
      cases items with
      | none => rfl
      | some it =>
        cases it with
        | mk ity ititle idesc ien iprops iitems ireq =>
          dsimp only
          by_cases hity : (ty == "array" && ity == "object") = true
          · rw [if_pos hity, if_pos hity, keyTreeList_deriveProps]
          · rw [if_neg hity, if_neg hity]; rfl

theorem keyTreeList_deriveProps : ∀ (parentKey : String)
    (props : List (String × SchemaNode)) (req : List String),
    keyTreeList (deriveProps parentKey props req) = schemaKeyTrees parentKey props
  | _, [], _ => rfl
  | parentKey, (n, c) :: rest, req => by
    rw [deriveProps, schemaKeyTrees, keyTreeList, keyTree_deriveParam,
      keyTreeList_deriveProps]

end

theorem length_deriveProps : ∀ (parentKey : String)
    (props : List (String × SchemaNode)) (req : List String),
    (deriveProps parentKey props req).length = props.length
  | _, [], _ => rfl
  | parentKey, (n, c) :: rest, req => by
    rw [deriveProps, List.length_cons, List.length_cons, length_deriveProps]

theorem key_schemaKeyTree (parentKey name : String) (child : SchemaNode) :
    (schemaKeyTree parentKey name child).key = joinKey parentKey name := by
  cases child with
  | mk ty title d en props items nreq =>
    rw [schemaKeyTree.eq_def]
    dsimp only
    rw [KeyTree.key]

theorem map_key_schemaKeyTrees : ∀ (parentKey : String)
    (props : List (String × SchemaNode)),
    (schemaKeyTrees parentKey props).map KeyTree.key =
      props.map (fun nc => joinKey parentKey nc.1)
  | _, [] => rfl
  | parentKey, (n, c) :: rest => by
    rw [schemaKeyTrees, List.map_cons, List.map_cons, key_schemaKeyTree,
      map_key_schemaKeyTrees]

/-! ### Sibling-key uniqueness -/

/-- Pairwise distinctness of a list of keys, as a computable check. -/
def keysNodupB : List String → Bool
  | [] => true
  | k :: rest => !rest.contains k && keysNodupB rest

mutual

/-- Keys pairwise distinct among this node's children and recursively below. -/
def KeyTree.nodupKeys : KeyTree → Bool
  | .node _ subs => keysNodupB (subs.map KeyTree.key) && nodupKeysAll subs

def nodupKeysAll : List KeyTree → Bool
  | [] => true
  | t :: rest => t.nodupKeys && nodupKeysAll rest

end

/-- Keys at one sibling level pairwise distinct, and recursively below. -/
def nodupKeysList (l : List KeyTree) : Bool :=
  keysNodupB (l.map KeyTree.key) && nodupKeysAll l

mutual

/-- Property names pairwise distinct at every level the Schema Walker
descends into (object properties, array-of-object item properties). -/
def SchemaNode.namesNodup : SchemaNode → Bool
  | .mk ty _ _ _ props items _ =>
    if ty == "object" then keysNodupB (props.map Prod.fst) && schemaNamesNodupAll props
    else
      match items with
      | some (.mk ity _ _ _ iprops _ _) =>
        if ty == "array" && ity == "object" then
          keysNodupB (iprops.map Prod.fst) && schemaNamesNodupAll iprops
        else true
      | none => true

def schemaNamesNodupAll : List (String × SchemaNode) → Bool
  | [] => true
  | (_, c) :: rest => c.namesNodup && schemaNamesNodupAll rest

end

/-- Names pairwise distinct at one property level, and recursively below. -/
def schemaNamesNodupProps (props : List (String × SchemaNode)) : Bool :=
  keysNodupB (props.map Prod.fst) && schemaNamesNodupAll props

theorem joinKey_inj (k : String) {a b : String} (h : joinKey k a = joinKey k b) : a = b := by
  rw [joinKey, joinKey] at h
  by_cases hk : (k == "") = true
  · rwa [if_pos hk, if_pos hk] at h
  · rw [if_neg hk, if_neg hk] at h
    have hd := congrArg String.data h
    simp only [String.data_append] at hd
    have hdata : a.data = b.data := List.append_cancel_left hd
    exact String.toList_inj.mp hdata

theorem keysNodupB_map_inj {f : String → String} (hf : ∀ x y, f x = f y → x = y) :
    ∀ {names : List String}, keysNodupB names = true → keysNodupB (names.map f) = true := by
  intro names
  induction names with
  | nil => intro _; rfl
  | cons k rest ih =>
    intro h
    rw [keysNodupB, Bool.and_eq_true] at h
    rw [List.map_cons, keysNodupB, Bool.and_eq_true]
    refine ⟨?_, ih h.2⟩
    have hk : ¬ k ∈ rest := by
      intro hmem
      have : rest.contains k = true := List.elem_eq_true_of_mem hmem
      rw [this] at h
      simpa using h.1
    have : ¬ f k ∈ rest.map f := by
      intro hmem
      rcases List.mem_map.mp hmem with ⟨x, hx, hfx⟩
      exact hk (hf x k hfx ▸ hx)
    simpa using fun hc => this (List.mem_of_elem_eq_true hc)

theorem map_key_joined (k : String) (props : List (String × SchemaNode)) :
    props.map (fun nc => joinKey k nc.1) = (props.map Prod.fst).map (joinKey k) := by
  rw [List.map_map]; rfl

mutual

theorem nodup_schemaKeyTree : ∀ (k n : String) (c : SchemaNode),
    c.namesNodup = true → (schemaKeyTree k n c).nodupKeys = true
  | k, n, .mk ty title d en props items nreq, h => by
    rw [SchemaNode.namesNodup.eq_def] at h
    dsimp only at h
    rw [schemaKeyTree.eq_def]
    dsimp only
    rw [KeyTree.nodupKeys]
    by_cases hty : (ty == "object") = true
    · rw [if_pos hty] at h ⊢
      rw [Bool.and_eq_true] at h
      rw [Bool.and_eq_true]
      constructor
      · rw [map_key_schemaKeyTrees, map_key_joined]
        exact keysNodupB_map_inj (fun x y => joinKey_inj (joinKey k n)) h.1
      · exact nodup_all_schemaKeyTrees _ props h.2
    · rw [if_neg hty] at h ⊢
      cases items with
      | none => rfl
      | some it =>
        cases it with
        | mk ity ititle idesc ien iprops iitems ireq =>
          dsimp only at h ⊢
          by_cases hity : (ty == "array" && ity == "object") = true
          · rw [if_pos hity] at h ⊢
            rw [Bool.and_eq_true] at h
            rw [Bool.and_eq_true]
            constructor
            · rw [map_key_schemaKeyTrees, map_key_joined]
              exact keysNodupB_map_inj (fun x y => joinKey_inj (joinKey k n)) h.1
            · exact nodup_all_schemaKeyTrees _ iprops h.2
          · rw [if_neg hity]
            rfl

theorem nodup_all_schemaKeyTrees : ∀ (k : String) (props : List (String × SchemaNode)),
    schemaNamesNodupAll props = true → nodupKeysAll (schemaKeyTrees k props) = true
  | _, [], _ => rfl
  | k, (n, c) :: rest, h => by
    rw [schemaNamesNodupAll, Bool.and_eq_true] at h
    rw [schemaKeyTrees, nodupKeysAll, Bool.and_eq_true]
    exact ⟨nodup_schemaKeyTree k n c h.1, nodup_all_schemaKeyTrees k rest h.2⟩

end

theorem nodup_schemaKeyTrees (k : String) (props : List (String × SchemaNode))
    (h : schemaNamesNodupProps props = true) :
    nodupKeysList (schemaKeyTrees k props) = true := by
  rw [schemaNamesNodupProps, Bool.and_eq_true] at h
  rw [nodupKeysList, Bool.and_eq_true]
  constructor
  · rw [map_key_schemaKeyTrees, map_key_joined]
    exact keysNodupB_map_inj (fun x y => joinKey_inj k) h.1
  · exact nodup_all_schemaKeyTrees k props h.2

/-! ### Claims C5, C7 about the Schema Walker -/

/-- C5: the walker derives exactly one UIParameter per schema property,
transitively — the derived `jsonKey` tree coincides node-for-node with the
schema's property tree (joined keys), so nothing is dropped and nothing is
duplicated — and when the schema's property names are unique per level (as in
any JSON object) the derived sibling `jsonKey`s are unique per level, at
every nesting depth. -/
theorem claim_C5_derive_complete :
    (∀ (parentKey : String) (props : List (String × SchemaNode)) (req : List String),
      (deriveProps parentKey props req).length = props.length ∧
      keyTreeList (deriveProps parentKey props req) = schemaKeyTrees parentKey props ∧
      (keyTreeList (deriveProps parentKey props req)).map KeyTree.key =
        props.map (fun nc => joinKey parentKey nc.1)) ∧
    (∀ (parentKey : String) (props : List (String × SchemaNode)) (req : List String),
      schemaNamesNodupProps props = true →
      nodupKeysList (keyTreeList (deriveProps parentKey props req)) = true) := by
  constructor
  · intro parentKey props req
    refine ⟨length_deriveProps parentKey props req, keyTreeList_deriveProps parentKey props req, ?_⟩
    rw [keyTreeList_deriveProps, map_key_schemaKeyTrees]
  · intro parentKey props req h
    rw [keyTreeList_deriveProps]
    exact nodup_schemaKeyTrees parentKey props h

/-- A small concrete schema document exercising scalars, enums, nested
objects and an array of objects. -/
def schemaExample : SchemaNode :=
  .mk "object" none "" []
    [("replicas", .mk "integer" (some "replicas") "" [] [] none []),
     ("volumes", .mk "string" (some "volumes") "" ["pvc", "configMap"] [] none []),
     ("rolloutBatches", .mk "array" none "" [] []
       (some (.mk "object" none "" []
         [("batch", .mk "integer" none "" [] [] none [])] none ["batch"])) []),
     ("env", .mk "object" none "" []
       [("name", .mk "string" none "" [] [] none []),
        ("value", .mk "string" none "" [] [] none [])] none ["name"])]
    none ["replicas", "rolloutBatches"]

/-- Witness for C5 at the concrete example schema. -/
theorem claim_C5_derive_complete_witness :
    ((deriveProps "" schemaExample.properties schemaExample.required).length =
      schemaExample.properties.length ∧
      keyTreeList (deriveProps "" schemaExample.properties schemaExample.required) =
        schemaKeyTrees "" schemaExample.properties) ∧
    nodupKeysList
      (keyTreeList (deriveProps "" schemaExample.properties schemaExample.required)) = true :=
  ⟨⟨(claim_C5_derive_complete.1 "" schemaExample.properties schemaExample.required).1,
    (claim_C5_derive_complete.1 "" schemaExample.properties schemaExample.required).2.1⟩,
   claim_C5_derive_complete.2 "" schemaExample.properties schemaExample.required (by decide)⟩

/-- C7: an unsupported schema node never aborts derivation — a node with an
unknown `type` (and no enum), or an `object` node without properties,
degrades to the generic scalar widget with no sub-parameters, and the walker
still derives one parameter per property of every sibling list. -/
theorem claim_C7_graceful_fallback :
    (∀ (parentKey name : String) (child : SchemaNode) (req : List String),
      child.enum = [] →
      child.type ∉ ["string", "number", "integer", "boolean", "object", "array"] →
      (deriveParam parentKey name child req).uiType = "Input" ∧
      (deriveParam parentKey name child req).subParameters = []) ∧
    (∀ (parentKey name : String) (child : SchemaNode) (req : List String),
      child.enum = [] → child.type = "object" → child.properties = [] →
      (deriveParam parentKey name child req).uiType = "Input" ∧
      (deriveParam parentKey name child req).subParameters = []) ∧
    (∀ (parentKey : String) (props : List (String × SchemaNode)) (req : List String),
      (deriveProps parentKey props req).length = props.length) := by
  refine ⟨?_, ?_, length_deriveProps⟩
  · intro parentKey name child req hen hty
    cases child with
    | mk ty title d en props items nreq =>
      simp only [SchemaNode.enum_mk] at hen
      simp only [SchemaNode.type_mk, List.mem_cons, List.mem_singleton] at hty
      push_neg at hty
      obtain ⟨h1, h2, h3, h4, h5, h6⟩ := hty
      subst hen
      have e1 : (ty == "string") = false := by simpa using h1
      have e2 : (ty == "number") = false := by simpa using h2
      have e3 : (ty == "integer") = false := by simpa using h3
      have e4 : (ty == "boolean") = false := by simpa using h4
      have e5 : (ty == "object") = false := by simpa using h5
      have e6 : (ty == "array") = false := by simpa using h6
      rw [deriveParam.eq_def]
      dsimp only
      constructor
      · rw [UIParameter.uiType_mk, inferUIType.eq_def]
        dsimp only
        simp [e1, e2, e3, e4, e5, e6]
      · rw [UIParameter.subParameters_mk, if_neg (by simp [e5])]
        cases items with
        | none => rfl
        | some it =>
          cases it with
          | mk ity ititle idesc ien iprops iitems ireq =>
            dsimp only
            rw [if_neg (by simp [e6])]
  · intro parentKey name child req hen hty hprops
    cases child with
    | mk ty title d en props items nreq =>
      simp only [SchemaNode.enum_mk] at hen
      simp only [SchemaNode.type_mk] at hty
      simp only [SchemaNode.properties_mk] at hprops
      subst hen
      subst hty
      subst hprops
      rw [deriveParam.eq_def]
      dsimp only
      constructor
      · rw [UIParameter.uiType_mk, inferUIType.eq_def]
        dsimp only
        simp
      · rw [UIParameter.subParameters_mk, if_pos (by simp)]
        rw [deriveProps]

/-- A schema node with an unknown type. -/
def unknownNode : SchemaNode := .mk "mystery" none "" [] [] none []

/-- An `object` node without properties. -/
def bareObjectNode : SchemaNode := .mk "object" none "" [] [] none []

/-- Witness for C7 at concrete malformed nodes. -/
theorem claim_C7_graceful_fallback_witness :
    ((deriveParam "" "u" unknownNode []).uiType = "Input" ∧
      (deriveParam "" "u" unknownNode []).subParameters = []) ∧
    ((deriveParam "" "o" bareObjectNode []).uiType = "Input" ∧
      (deriveParam "" "o" bareObjectNode []).subParameters = []) ∧
    (deriveProps "" [("u", unknownNode), ("o", bareObjectNode)] []).length = 2 :=
  ⟨claim_C7_graceful_fallback.1 "" "u" unknownNode [] rfl (by decide),
   claim_C7_graceful_fallback.2.1 "" "o" bareObjectNode [] rfl rfl rfl,
   claim_C7_graceful_fallback.2.2 "" [("u", unknownNode), ("o", bareObjectNode)] []⟩

/-! ## Orchestration façade (spec §4.4) and claim C8 -/

mutual

/-- Modelled from the spec (§4.2): the sorter applied recursively to every
`subParameters` list of one parameter. -/
def sortTreeParam : UIParameter → UIParameter
  | .mk k l d u v c s sub => .mk k l d u v c s (sortDefaultUISchema (sortTreeEach sub))

def sortTreeEach : List UIParameter → List UIParameter
  | [] => []
  | p :: rest => sortTreeParam p :: sortTreeEach rest

end

/-- Modelled from the spec (§4.2): sort every sibling list of a tree,
children first, then the list itself. -/
def sortTreeList (l : List UIParameter) : List UIParameter :=
  sortDefaultUISchema (sortTreeEach l)

/-- Modelled from the spec (§4.4, the Go function `renderDefaultUISchema`
whose implementation file is absent; its unit test is in the sources):
derive the default tree (§4.1), then sort every sibling list (§4.2). -/
def renderDefaultUISchema (root : SchemaNode) : List UIParameter :=
  sortTreeList (deriveProps "" root.properties root.required)

/-- Modelled from the spec (§4.4): derive, sort, then patch with the override
document (§4.3); an absent override document is the empty list. -/
def renderFinalUISchema (root : SchemaNode)
    (overrides : List PartialUIParameter) : List UIParameter :=
  patchSchema (renderDefaultUISchema root) overrides

/-- C8: with an absent (empty) override document, `renderFinal` returns
exactly the default-rendered list. -/
theorem claim_C8_empty_override_is_default (root : SchemaNode) :
    renderFinalUISchema root [] = renderDefaultUISchema root := by
  rw [renderFinalUISchema, patchSchema_nil_overrides]

/-! ## Environment service (`pkg/server/domain/service/env.go`) -/

/-- The fields of `model.Env` used by the environment service. -/
structure Env where
  name : String
  aliasName : String
  description : String
  nspace : String
  project : String
  targets : List String
deriving DecidableEq

/-- Datastore errors distinguished by `DeleteEnv`: `datastore.ErrRecordNotExist`
versus anything else. -/
inductive DSErr : Type where
  | recordNotExist
  | other
deriving DecidableEq

/-- Kubernetes client errors distinguished by `DeleteEnv`'s namespace update:
`apierror.IsNotFound` versus anything else. -/
inductive K8sErr : Type where
  | notFound
  | other
deriving DecidableEq

/-- Errors surfaced by `DeleteEnv`. -/
inductive DeleteErr : Type where
  | ds (e : DSErr)
  | k8s (e : K8sErr)
  | priv
deriving DecidableEq

/-- Externally visible side effects of `DeleteEnv`, in order. -/
inductive EnvEffect : Type where
  | updateNamespaceLabels (nspace : String)
  | storeDelete (name : String)
  | managePrivileges (nspace project : String) (revoke : Bool)
deriving DecidableEq

/-- `envServiceImpl.DeleteEnv` (env.go:73-104), with the results of the four
external calls (`Store.Get`, `util.UpdateNamespace`, `Store.Delete`,
`managePrivilegesForEnvironment`) passed as parameters, returning the
function result together with the list of external mutations performed.
Mirrors the source exactly: a missing record on `Get` returns `nil` before
touching anything; a namespace-update error aborts only when it is a
Kubernetes NotFound error (`err != nil && apierror.IsNotFound(err)`); a
missing record on `Delete` returns `nil`; finally privileges are revoked. -/
def deleteEnv (getR : Except DSErr Env) (nsR : Option K8sErr) (delR : Option DSErr)
    (privOk : Bool) : Except DeleteErr Unit × List EnvEffect :=
  match getR with
  | .error .recordNotExist => (.ok (), [])
  | .error .other => (.error (.ds .other), [])
  | .ok env =>
    let effNs := [EnvEffect.updateNamespaceLabels env.nspace]
    if nsR = some K8sErr.notFound then (.error (.k8s K8sErr.notFound), effNs)
    else
      let effDel := effNs ++ [EnvEffect.storeDelete env.name]
      match delR with
      | some .recordNotExist => (.ok (), effDel)
      | some .other => (.error (.ds .other), effDel)
      | none =>
        let effPriv := effDel ++ [EnvEffect.managePrivileges env.nspace env.project true]
        if privOk then (.ok (), effPriv) else (.error .priv, effPriv)

/-- `envServiceImpl.checkEnvTarget` (env.go:310-332): true when `targets` is
empty; otherwise list the project's envs (`listR` is the result of
`Store.List` with the `project` filter) and report false as soon as a stored
env with a different name already lists one of the given targets; a listing
error propagates (the Go function returns `(false, err)`). -/
def checkEnvTarget (listR : Except Unit (List Env)) (envName : String)
    (targets : List String) : Except Unit Bool :=
  if targets.isEmpty then .ok true
  else
    match listR with
    | .error _ => .error ()
    | .ok entities =>
      .ok (entities.all fun env =>
        env.targets.all fun t => !(targets.contains t && env.name != envName))

/-- The error codes of `bcode` distinguished by the environment service. -/
inductive BCode : Type where
  | envTargetConflict
  | targetNotExist
  | envNotExisted
  | envTargetNotAllowDelete
  | generic
deriving DecidableEq

/-- `apisv1.CreateEnvRequest`, the fields used by `CreateEnv`. -/
structure CreateEnvRequest where
  name : String
  aliasName : String
  description : String
  nspace : String
  project : String
  targets : List String
  allowTargetConflict : Bool
deriving DecidableEq

/-- The part of `CreateEnv` after the target-conflict gate (env.go:279-307):
every requested target must exist, then the env is created and privileges
granted. -/
def createEnvRest (newEnv : Env) (targetsR : Except Unit (List String))
    (createR : Except Unit Unit) (privOk : Bool) : Except BCode Env :=
  match targetsR with
  | .error _ => .error .generic
  | .ok targetNames =>
    if newEnv.targets.all (fun t => targetNames.contains t) then
      match createR with
      | .error _ => .error .generic
      | .ok _ => if privOk then .ok newEnv else .error .generic
    else .error .targetNotExist

/-- The `model.Env` built by `CreateEnv` from the request (env.go:263-270). -/
def envOfCreateReq (req : CreateEnvRequest) : Env :=
  ⟨req.name, req.aliasName, req.description, req.nspace, req.project, req.targets⟩

/-- `envServiceImpl.CreateEnv` (env.go:262-308): unless
`AllowTargetConflict` is set, a failed (or errored) `checkEnvTarget` yields
`bcode.ErrEnvTargetConflict`. -/
def createEnv (req : CreateEnvRequest) (checkListR : Except Unit (List Env))
    (targetsR : Except Unit (List String)) (createR : Except Unit Unit)
    (privOk : Bool) : Except BCode Env :=
  if req.allowTargetConflict = false then
    match checkEnvTarget checkListR req.name req.targets with
    | .error _ => .error .envTargetConflict
    | .ok pass =>
      if pass then createEnvRest (envOfCreateReq req) targetsR createR privOk
      else .error .envTargetConflict
  else createEnvRest (envOfCreateReq req) targetsR createR privOk

/-- `apisv1.UpdateEnvRequest`, the fields used by `UpdateEnv`. -/
structure UpdateEnvRequest where
  aliasName : String
  description : String
  targets : List String
deriving DecidableEq

/-- The part of `UpdateEnv` after the target-conflict gate (env.go:209-250):
deleting a target from an env with applications is refused, requested targets
must all exist, then the env is stored and privileges updated. -/
def updateEnvRest (env : Env) (req : UpdateEnvRequest) (appCountR : Except Unit Nat)
    (targetsListR : Except Unit (List String)) (putR : Except Unit Unit)
    (privOk : Bool) : Except BCode Env :=
  let step :=
    if req.targets.isEmpty then Except.ok env
    else
      let deleted := env.targets.filter (fun t => !req.targets.contains t)
      let afterCount : Except BCode Env :=
        match targetsListR with
        | .error _ => .error .generic
        | .ok ts =>
          if ts.length ≠ req.targets.length then .error .targetNotExist
          else .ok { env with targets := req.targets }
      if deleted.isEmpty then afterCount
      else
        match appCountR with
        | .error _ => .error .generic
        | .ok count => if count > 0 then .error .envTargetNotAllowDelete else afterCount
  match step with
  | .error e => .error e
  | .ok env2 =>
    match putR with
    | .error _ => .error .generic
    | .ok _ => if privOk then .ok env2 else .error .generic

/-- The alias/description overwrite of `UpdateEnv` (env.go:198-203):
non-empty request fields replace the stored ones. -/
def updateAliasDesc (env0 : Env) (req : UpdateEnvRequest) : Env :=
  let env1 := if req.aliasName != "" then { env0 with aliasName := req.aliasName } else env0
  if req.description != "" then { env1 with description := req.description } else env1

theorem name_updateAliasDesc (env0 : Env) (req : UpdateEnvRequest) :
    (updateAliasDesc env0 req).name = env0.name := by
  rw [updateAliasDesc]
  cases env0
  dsimp only
  split <;> split <;> rfl

/-- `envServiceImpl.UpdateEnv` (env.go:190-251): a missing env yields
`ErrEnvNotExisted`; alias and description are overwritten when non-empty; a
failed (or errored) `checkEnvTarget` yields `bcode.ErrEnvTargetConflict`. -/
def updateEnv (req : UpdateEnvRequest) (getR : Except Unit Env)
    (checkListR : Except Unit (List Env)) (appCountR : Except Unit Nat)
    (targetsListR : Except Unit (List String)) (putR : Except Unit Unit)
    (privOk : Bool) : Except BCode Env :=
  match getR with
  | .error _ => .error .envNotExisted
  | .ok env0 =>
    match checkEnvTarget checkListR (updateAliasDesc env0 req).name req.targets with
    | .error _ => .error .envTargetConflict
    | .ok pass =>
      if pass then updateEnvRest (updateAliasDesc env0 req) req appCountR targetsListR putR privOk
      else .error .envTargetConflict

/-! ### Claims C9, C10 about the environment service -/

/-- C9: `DeleteEnv` succeeds (returns nil) when the env record does not
exist — both when the initial `Get` reports it missing, in which case neither
the namespace labels nor the privileges are touched, and when the `Delete`
itself reports it missing. -/
theorem claim_C9_delete_missing_env_is_nil :
    (∀ (nsR : Option K8sErr) (delR : Option DSErr) (privOk : Bool),
      deleteEnv (.error .recordNotExist) nsR delR privOk = (.ok (), [])) ∧
    (∀ (env : Env) (nsR : Option K8sErr) (privOk : Bool),
      nsR ≠ some K8sErr.notFound →
      deleteEnv (.ok env) nsR (some .recordNotExist) privOk =
        (.ok (), [EnvEffect.updateNamespaceLabels env.nspace,
          EnvEffect.storeDelete env.name])) := by
  constructor
  · intro nsR delR privOk
    rfl
  · intro env nsR privOk h
    simp [deleteEnv, h]

/-- Witness for C9 at concrete call results. -/
theorem claim_C9_delete_missing_env_is_nil_witness :
    deleteEnv (.error .recordNotExist) none none true = (.ok (), []) ∧
    deleteEnv (.ok ⟨"dev", "", "", "ns-dev", "proj", []⟩) none (some .recordNotExist) true =
      (.ok (), [EnvEffect.updateNamespaceLabels "ns-dev", EnvEffect.storeDelete "dev"]) :=
  ⟨claim_C9_delete_missing_env_is_nil.1 none none true,
   claim_C9_delete_missing_env_is_nil.2 ⟨"dev", "", "", "ns-dev", "proj", []⟩ none true
     (by decide)⟩

theorem checkEnvTarget_false_iff (entities : List Env) (envName : String)
    (targets : List String) :
    checkEnvTarget (.ok entities) envName targets = .ok false ↔
      targets ≠ [] ∧ ∃ env ∈ entities, env.name ≠ envName ∧
        ∃ t ∈ env.targets, t ∈ targets := by
  rw [checkEnvTarget]
  by_cases ht : targets.isEmpty
  · rw [if_pos ht]
    have h0 : targets = [] := List.isEmpty_iff.mp ht
    subst h0
    simp
  · rw [if_neg ht]
    have hne : targets ≠ [] := fun h => ht (by rw [h]; rfl)
    simp only [Except.ok.injEq, hne, ne_eq, not_false_iff, true_and]
    constructor
    · intro hall
      rcases List.all_eq_false.mp hall with ⟨env, henv, hfenv⟩
      have hfenv' : (env.targets.all fun t => !(targets.contains t && env.name != envName)) =
          false := by
        cases hcase : env.targets.all fun t => !(targets.contains t && env.name != envName)
        · rfl
        · exact absurd hcase hfenv
      rcases List.all_eq_false.mp hfenv' with ⟨t, htmem, hft⟩
      have hand : (targets.contains t && env.name != envName) = true := by
        cases hcase : targets.contains t && env.name != envName
        · exact absurd (by rw [hcase]; rfl) hft
        · rfl
      rcases Bool.and_eq_true_iff.mp hand with ⟨hc, hb⟩
      exact ⟨env, henv, bne_iff_ne.mp hb, t, htmem, List.mem_of_elem_eq_true hc⟩
    · rintro ⟨env, henv, hname, t, htmem, htin⟩
      apply List.all_eq_false.mpr
      refine ⟨env, henv, ?_⟩
      intro hall
      have hins := List.all_eq_true.mp hall t htmem
      rw [Bool.not_eq_eq_eq_not, Bool.not_true, Bool.and_eq_false_iff] at hins
      have hcontains : targets.contains t = true := List.elem_eq_true_of_mem htin
      rcases hins with h | h
      · rw [hcontains] at h
        exact absurd h (by decide)
      · exact absurd h (by simpa using hname)

/-- C10: within one project a delivery target may belong to only one env —
`checkEnvTarget` passes whenever `targets` is empty, and otherwise fails
exactly when a stored env of the project with a different name already lists
one of the given targets; `CreateEnv` (unless `AllowTargetConflict` is set)
and `UpdateEnv` return `ErrEnvTargetConflict` when the check does not pass. -/
theorem claim_C10_env_target_exclusive :
    (∀ (listR : Except Unit (List Env)) (envName : String),
      checkEnvTarget listR envName [] = .ok true) ∧
    (∀ (entities : List Env) (envName : String) (targets : List String),
      checkEnvTarget (.ok entities) envName targets = .ok false ↔
        targets ≠ [] ∧ ∃ env ∈ entities, env.name ≠ envName ∧
          ∃ t ∈ env.targets, t ∈ targets) ∧
    (∀ (req : CreateEnvRequest) (checkListR : Except Unit (List Env))
        (targetsR : Except Unit (List String)) (createR : Except Unit Unit) (privOk : Bool),
      req.allowTargetConflict = false →
      checkEnvTarget checkListR req.name req.targets ≠ .ok true →
      createEnv req checkListR targetsR createR privOk = Except.error .envTargetConflict) ∧
    (∀ (req : UpdateEnvRequest) (env0 : Env) (checkListR : Except Unit (List Env))
        (appCountR : Except Unit Nat) (targetsListR : Except Unit (List String))
        (putR : Except Unit Unit) (privOk : Bool),
      checkEnvTarget checkListR env0.name req.targets ≠ .ok true →
      updateEnv req (.ok env0) checkListR appCountR targetsListR putR privOk =
        Except.error .envTargetConflict) := by
  refine ⟨fun listR envName => rfl, checkEnvTarget_false_iff, ?_, ?_⟩
  · intro req checkListR targetsR createR privOk hallow hcheck
    rw [createEnv, if_pos hallow]
    cases hc : checkEnvTarget checkListR req.name req.targets with
    | error e => rfl
    | ok pass =>
      cases pass with
      | true => exact absurd hc hcheck
      | false => rfl
  · intro req env0 checkListR appCountR targetsListR putR privOk hcheck
    rw [updateEnv]
    rw [name_updateAliasDesc]
    cases hc : checkEnvTarget checkListR env0.name req.targets with
    | error e => rfl
    | ok pass =>
      cases pass with
      | true => exact absurd hc hcheck
      | false => rfl

/-- A stored env of the project `proj` owning target `t1`. -/
def prodEnv : Env := ⟨"prod", "", "", "ns-prod", "proj", ["t1"]⟩

/-- A create request for a second env of the same project reusing `t1`. -/
def devCreateReq : CreateEnvRequest := ⟨"dev", "", "", "ns-dev", "proj", ["t1"], false⟩

/-- An update request reusing `t1`. -/
def devUpdateReq : UpdateEnvRequest := ⟨"", "", ["t1"]⟩

/-- The stored env of the project being updated. -/
def devEnv : Env := ⟨"dev", "", "", "ns-dev", "proj", []⟩

/-- Witness for C10 at concrete data: the conflicting create and update both
return `ErrEnvTargetConflict`. -/
theorem claim_C10_env_target_exclusive_witness :
    checkEnvTarget (.error ()) "dev" [] = .ok true ∧
    (checkEnvTarget (.ok [prodEnv]) "dev" ["t1"] = .ok false ↔
      (["t1"] : List String) ≠ [] ∧ ∃ env ∈ [prodEnv], env.name ≠ "dev" ∧
        ∃ t ∈ env.targets, t ∈ (["t1"] : List String)) ∧
    createEnv devCreateReq (.ok [prodEnv]) (.ok ["t1"]) (.ok ()) true =
      Except.error .envTargetConflict ∧
    updateEnv devUpdateReq (.ok devEnv) (.ok [prodEnv]) (.ok 0) (.ok ["t1"]) (.ok ()) true =
      Except.error .envTargetConflict :=
  ⟨claim_C10_env_target_exclusive.1 (.error ()) "dev",
   claim_C10_env_target_exclusive.2.1 [prodEnv] "dev" ["t1"],
   claim_C10_env_target_exclusive.2.2.1 devCreateReq (.ok [prodEnv]) (.ok ["t1"]) (.ok ()) true
     rfl (fun h => Bool.false_ne_true (Except.ok.inj h)),
   claim_C10_env_target_exclusive.2.2.2 devUpdateReq devEnv (.ok [prodEnv]) (.ok 0)
     (.ok ["t1"]) (.ok ()) true (fun h => Bool.false_ne_true (Except.ok.inj h))⟩

end VelaUX
